import Mathlib

/-!
# Verification of the industrial-training-assistant RAG core

Shallow embedding of the core retrieval-augmented generation pipeline of the
repository, with theorems checking the specification's claims:

* `server/ingest/chunker.py` (`TextChunker.clean_text`, `split_into_chunks`)
* `server/ingest/vectorstore.py` (`FAISSVectorStore.add_vectors`, `search`, `clear`)
* `server/ingest/embedder.py` (`EmbeddingGenerator`)
* `server/ingest/indexer.py` (`DocumentIndexer.index_directory`, `__init__`)
* `server/qa/retriever.py` (`DocumentRetriever.retrieve_relevant_chunks`)
* `server/qa/llm.py` (`LLMClient.generate_response`)

Strings are modelled as `List Char` in the kernel of the development (with
`String` wrappers at the interfaces), Python floats as `ℚ` where the code only
compares and adds them, and the real-valued vector arithmetic of the FAISS
index as exact arithmetic over `ℝ`.
-/

/-! ## Python character/string primitives used by the source -/

/-- Python's `\s` character class (ASCII part): space, tab, newline, carriage
return, vertical tab, form feed.  Used by `re.sub(r'\s+', ' ', ...)`,
`str.strip()` and `str.split()`. -/
def pyIsSpace (c : Char) : Bool :=
  c == ' ' || c == '\t' || c == '\n' || c == '\r' || c == '\x0b' || c == '\x0c'

/-- Python `str.strip()` on a list of characters. -/
def pyStrip (l : List Char) : List Char :=
  ((l.dropWhile pyIsSpace).reverse.dropWhile pyIsSpace).reverse

/-- Python `str.strip()` on a `String`. -/
def pyStripS (s : String) : String :=
  String.mk (pyStrip s.data)

/-- `re.sub(r'\s+', ' ', text)`, character by character: the flag records
whether we are inside a whitespace run whose single replacement space was
already emitted. -/
def collapseWsAux : Bool → List Char → List Char
  | _, [] => []
  | inRun, c :: cs =>
    if pyIsSpace c then
      if inRun then collapseWsAux true cs
      else ' ' :: collapseWsAux true cs
    else c :: collapseWsAux false cs

/-- `re.sub(r'\s+', ' ', text)`: collapse every maximal run of whitespace
characters to a single space. -/
def collapseWsCore (l : List Char) : List Char :=
  collapseWsAux false l

/-- Python `text.split('\n')`. -/
def splitOnNl : List Char → List (List Char)
  | [] => [[]]
  | c :: cs =>
    if c = '\n' then [] :: splitOnNl cs
    else
      match splitOnNl cs with
      | [] => [[c]]
      | g :: gs => (c :: g) :: gs

/-- Python `'\n'.join(lines)`. -/
def joinNl : List (List Char) → List Char
  | [] => []
  | [l] => l
  | l :: ls => l ++ '\n' :: joinNl ls

/-- Python `str.isdigit()` (ASCII digits): non-empty and all digits. -/
def pyIsDigitStr (l : List Char) : Bool :=
  !l.isEmpty && l.all (·.isDigit)

/-- Python `str.lower()` (ASCII). -/
def lowerStr (l : List Char) : List Char :=
  l.map Char.toLower

/-- Decide whether `pat` is a leading segment of `l`. -/
def leadsList : List Char → List Char → Bool
  | [], _ => true
  | _ :: _, [] => false
  | a :: as, b :: bs => a == b && leadsList as bs

/-- Python `pat in text` substring test. -/
def containsSub (pat : List Char) : List Char → Bool
  | [] => leadsList pat []
  | b :: rest => leadsList pat (b :: rest) || containsSub pat rest

/-- Python `str.split()` (split on whitespace runs, dropping empty words). -/
def pyWords : List Char → List (List Char)
  | [] => []
  | c :: cs =>
    if pyIsSpace c then pyWords (cs.dropWhile pyIsSpace)
    else
      match pyWords (cs.dropWhile (fun d => !pyIsSpace d)) with
      | ws => (c :: cs.takeWhile (fun d => !pyIsSpace d)) :: ws
termination_by l => l.length
decreasing_by
  · simpa using Nat.lt_succ_of_le (List.dropWhile_sublist _).length_le
  · simpa using Nat.lt_succ_of_le (List.dropWhile_sublist _).length_le

/-! ## Text Segmenter — `server/ingest/chunker.py`

`TextChunker.clean_text` first runs `re.sub(r'\s+', ' ', text)` and only then
splits on `'\n'` and filters lines. -/

/-- The header/footer keyword patterns of `clean_text`. -/
def headerFooterPatterns : List (List Char) :=
  ["page".data, "of".data, "confidential".data, "internal use only".data]

/-- The per-line filter of `clean_text`: drop lines shorter than 2
characters, short pure-digit lines, and short lines containing a
header/footer keyword. -/
def keepLine (l : List Char) : Bool :=
  if l.length < 2 then false
  else if pyIsDigitStr l && l.length < 5 then false
  else if (headerFooterPatterns.any fun p => containsSub p (lowerStr l)) && l.length < 20 then
    false
  else true

/-- `TextChunker.clean_text` on character lists: collapse whitespace, split on
newlines, strip/filter each line, re-join with newlines. -/
def cleanTextCore (text : List Char) : List Char :=
  if text = [] then []
  else joinNl ((((splitOnNl (collapseWsCore text)).map pyStrip).filter keepLine))

/-- `TextChunker.clean_text`. -/
def cleanText (s : String) : String :=
  String.mk (cleanTextCore s.data)

/-- `current_chunk[-overlap:] if len(current_chunk) > overlap else current_chunk`,
the overlap seed of `split_into_chunks`.  (Python `l[-0:]` is all of `l`.) -/
def overlapSeed (ov : Nat) (cur : List Char) : List Char :=
  if ov < cur.length then
    if ov = 0 then cur else cur.drop (cur.length - ov)
  else cur

/-- The sentence-accumulation loop of `TextChunker.split_into_chunks`
(lines 60–99), returning the emitted chunk buffers in order.  `cur` is
`current_chunk`; the code's `current_length` always equals
`len(current_chunk)` and is represented by `cur.length`. -/
def chunkLoop (cs ov : Nat) : List Char → List (List Char) → List (List Char)
  | cur, [] => if pyStrip cur = [] then [] else [cur]
  | cur, s₀ :: rest =>
    let s := pyStrip s₀
    if s = [] then chunkLoop cs ov cur rest
    else if cs < cur.length + s.length ∧ cur ≠ [] then
      cur :: chunkLoop cs ov (overlapSeed ov cur ++ ' ' :: s) rest
    else if cur = [] then chunkLoop cs ov s rest
    else chunkLoop cs ov (cur ++ ' ' :: s) rest

/-- An emitted chunk: the stripped buffer text plus the `chunk_length`
metadata field (`len(current_chunk)`, unstripped). -/
structure PyChunk where
  text : List Char
  chunkLength : Nat
deriving DecidableEq, Repr

/-- `TextChunker.split_into_chunks` from the sentence list onward.  Sentence
tokenisation (`nltk.sent_tokenize`, an external collaborator) has already
produced `sentences`; the loop strips each sentence, accumulates buffers and
emits each buffer as a chunk whose text is the stripped buffer. -/
def splitFromSentences (cs ov : Nat) (sentences : List String) : List PyChunk :=
  (chunkLoop cs ov [] (sentences.map (·.data))).map fun b => ⟨pyStrip b, b.length⟩

/-! ## Retriever — `server/qa/retriever.py`

`DocumentRetriever.retrieve_relevant_chunks` fetches `k*4` candidates from
`DocumentIndexer.search_documents` and post-filters them in two passes.  The
candidate dicts are modelled by `RResult` (the `text` and `score` keys the
algorithm reads, plus a tag standing for the remaining metadata fields, so
that Python dict equality is structure equality).  The text-similarity
measure `difflib.SequenceMatcher(None, a.lower(), b.lower()).ratio()` is an
external collaborator and is passed in as `sim`. -/

structure RResult where
  text : String
  score : ℚ
  tag : Nat
deriving DecidableEq, Repr

/-- First, strict pass of `retrieve_relevant_chunks` (lines 31–51): accept a
candidate when its score exceeds 0.001, its stripped text is non-empty and no
already-seen text is more than 0.8-similar; stop as soon as `k` results are
accepted. -/
def strictPass (sim : String → String → ℚ) (k : Nat) :
    List RResult → List RResult → List String → List RResult
  | [], acc, _ => acc
  | r :: rest, acc, seen =>
    let t := pyStripS r.text
    if 1/1000 < r.score ∧ t ≠ "" then
      if seen.any fun s => 4/5 < sim t s then strictPass sim k rest acc seen
      else if k ≤ (acc ++ [r]).length then acc ++ [r]
      else strictPass sim k rest (acc ++ [r]) (seen ++ [t])
    else strictPass sim k rest acc seen

/-- Second, unfiltered pass (lines 54–61): accept any candidate not already
in the accepted list whose stripped text is non-empty, until `k` results. -/
def backfillPass (k : Nat) : List RResult → List RResult → List RResult
  | [], acc => acc
  | r :: rest, acc =>
    if r ∈ acc then backfillPass k rest acc
    else if pyStripS r.text ≠ "" then
      if k ≤ (acc ++ [r]).length then acc ++ [r]
      else backfillPass k rest (acc ++ [r])
    else backfillPass k rest acc

/-- `DocumentRetriever.retrieve_relevant_chunks`, applied to the candidate
pool `results` that `self.indexer.search_documents(query, k=k*4)` returned
(that pool has at most `4*k` entries, see `search_length_min` below). -/
def retrieveRelevantChunks (sim : String → String → ℚ) (k : Nat)
    (results : List RResult) : List RResult :=
  let f := strictPass sim k results [] []
  if f.length < k ∧ results ≠ [] then backfillPass k results f else f

/-! ## Embedding Provider — `server/ingest/embedder.py`

`EmbeddingGenerator` holds mutable backend-selection state; embeddings are
lists of rationals (the numeric values never matter to the control flow).
The outcomes of the two external backend calls that a single
`generate_embeddings` invocation can make — the primary (OpenAI) call and
the local sentence-transformer call — are passed in as `Except` values
(`.error` models the call raising). -/

structure EmbState where
  use_local : Bool
  use_google : Bool
  embedding_dim : Nat
deriving DecidableEq, Repr

/-- `EmbeddingGenerator.__init__`: local → 384, Google → 768, OpenAI → 1536. -/
def mkEmbedder (useLocal useGoogle : Bool) : EmbState :=
  if useLocal then ⟨true, useGoogle, 384⟩
  else if useGoogle then ⟨false, true, 768⟩
  else ⟨false, false, 1536⟩

/-- `EmbeddingGenerator.generate_embeddings`, returning the produced batch
(or the propagated exception) together with the provider state after the
call.

* empty input: no backend call, empty output;
* local state: run local; a raise is caught and, since `use_local` is
  already set, the handler returns `[]`;
* Google state: `_generate_google_embeddings` never calls Google — it
  switches the provider to local (dim 384) and runs the local model; a raise
  there reaches the handler after `use_local` was already set, so the
  handler returns `[]`;
* OpenAI state: on a raise the handler sets `use_local`/dim 384 and retries
  the same batch locally once; a raise of that retry propagates. -/
def genEmbeddings (st : EmbState) (primary localB : Except String (List (List ℚ)))
    (texts : List String) : Except String (List (List ℚ)) × EmbState :=
  if texts = [] then (.ok [], st)
  else if st.use_local then
    match localB with
    | .ok v => (.ok v, st)
    | .error _ => (.ok [], st)
  else if st.use_google then
    let st' : EmbState := { st with use_local := true, embedding_dim := 384 }
    match localB with
    | .ok v => (.ok v, st')
    | .error _ => (.ok [], st')
  else
    match primary with
    | .ok v => (.ok v, st)
    | .error _ =>
      let st' : EmbState := { st with use_local := true, embedding_dim := 384 }
      match localB with
      | .ok v => (.ok v, st')
      | .error e => (.error e, st')

/-- `EmbeddingGenerator.get_embedding_dimension`. -/
def getEmbeddingDimension (st : EmbState) : Nat :=
  st.embedding_dim

/-- Run a sequence of `generate_embeddings` calls (primary outcome, local
outcome, texts), threading the provider state. -/
def runEmbCalls (st : EmbState)
    (calls : List (Except String (List (List ℚ)) × Except String (List (List ℚ)) × List String)) :
    EmbState :=
  calls.foldl (fun s c => (genEmbeddings s c.1 c.2.1 c.2.2).2) st

/-- Backend selection in `DocumentIndexer.__init__`: Google if its key is
set and not the placeholder, else OpenAI if its key is set, else local.
Keys are `Option String`; Python truthiness of a string is non-emptiness. -/
def indexerEmbedder (googleKey openaiKey : Option String) : EmbState :=
  if (googleKey.getD "" ≠ "") ∧ googleKey ≠ some "PUT_YOUR_GOOGLE_API_KEY_HERE" then
    mkEmbedder false true
  else if openaiKey.getD "" ≠ "" then mkEmbedder false false
  else mkEmbedder true false

/-- `DocumentIndexer.__init__` constructs the FAISS store with
`dimension=self.embedder.get_embedding_dimension()`. -/
def indexerStoreDim (googleKey openaiKey : Option String) : Nat :=
  getEmbeddingDimension (indexerEmbedder googleKey openaiKey)

/-! ## Indexing Pipeline — `server/ingest/indexer.py`

`DocumentIndexer.index_directory` iterates the directory's PDF files.  The
per-file pipeline (parser, OCR, chunker, embedder — external collaborators
plus the components modelled above) is abstracted into the five outcomes the
control flow of lines 66–115 distinguishes. -/

inductive FileOutcome where
  /-- `extract_text_from_pdf` returned a dict with an `'error'` key. -/
  | parseError (msg : String)
  /-- `process_pdf_pages` produced no chunks. -/
  | noChunks
  /-- `generate_embeddings` returned an empty list for the chunk texts. -/
  | noEmbeddings
  /-- An exception escaped the per-file body and was caught by the handler. -/
  | exception (msg : String)
  /-- The file was chunked, embedded and added to the vector store. -/
  | success (chunks : Nat)
deriving DecidableEq, Repr

structure IndexSummary where
  processed_files : Nat
  total_chunks : Nat
  errors : List String
deriving DecidableEq, Repr

/-- One iteration of the `for pdf_file in pdf_files` loop. -/
def processOneFile (acc : IndexSummary) (f : String × FileOutcome) : IndexSummary :=
  match f.2 with
  | .parseError m => { acc with errors := acc.errors ++ [f.1 ++ ": " ++ m] }
  | .noChunks => acc
  | .noEmbeddings => acc
  | .exception m => { acc with errors := acc.errors ++ [f.1 ++ ": " ++ m] }
  | .success n =>
    { acc with
      processed_files := acc.processed_files + 1
      total_chunks := acc.total_chunks + n }

/-- `DocumentIndexer.index_directory` over the files found in the directory,
each paired with its per-file pipeline outcome. -/
def indexDirectory (files : List (String × FileOutcome)) : IndexSummary :=
  files.foldl processOneFile ⟨0, 0, []⟩

/-- Whether a file counts into `processed_files`. -/
def FileOutcome.isSuccess : FileOutcome → Bool
  | .success _ => true
  | _ => false

/-- The error-list entry a file contributes, if any. -/
def errorEntry (f : String × FileOutcome) : Option String :=
  match f.2 with
  | .parseError m => some (f.1 ++ ": " ++ m)
  | .exception m => some (f.1 ++ ": " ++ m)
  | _ => none

/-! ## Generation Client — `server/qa/llm.py`

The three cloud paths (`_generate_groq_response`, `_generate_google_response`,
`_generate_openai_response`) share the same shape: call the backend, strip
and post-process the answer, compute the heuristic confidence; on any
exception return an apology with confidence 0.0.  The backend completion is
an external collaborator and is passed in as an `Except String String`
(`.error e` models `str(e)` of a raised exception). -/

structure GenAnswer where
  response : String
  confidence : ℚ
  modelTag : Option String
  errorMsg : Option String
deriving DecidableEq, Repr

/-- `LLMClient._calculate_confidence`: base 0.5, +0.2 / +0.1 for long
responses, +0.2 for substantial context, −0.1 on hedging words, clamped to
[0, 1]; 0.0 when response or context is empty. -/
def calculateConfidence (response context : String) : ℚ :=
  if response = "" ∨ context = "" then 0
  else
    let c1 : ℚ := 1/2
    let c2 := if 100 < response.length then c1 + 1/5 else c1
    let c3 := if 200 < response.length then c2 + 1/10 else c2
    let c4 := if 500 < context.length then c3 + 1/5 else c3
    let uncertaintyWords :=
      ["might".data, "possibly".data, "unclear".data, "not sure".data,
        "uncertain".data, "may".data, "could be".data]
    let c5 :=
      if uncertaintyWords.any (fun w => containsSub w (lowerStr response.data)) then c4 - 1/10
      else c4
    min (max c5 0) 1

/-- A match of `\s*\d+[\)\.]\s*` starting exactly at the head of `l`:
`some rest` is the remainder after the match (the regex has no effective
backtracking: maximal whitespace, at least one digit — maximal, one of `)`
or `.`, maximal whitespace). -/
def numMarkMatch (l : List Char) : Option (List Char) :=
  let r1 := l.dropWhile pyIsSpace
  match r1.takeWhile Char.isDigit, r1.dropWhile Char.isDigit with
  | [], _ => none
  | _ :: _, c :: r3 => if c = ')' ∨ c = '.' then some (r3.dropWhile pyIsSpace) else none
  | _ :: _, [] => none

/-- `re.split(r'\s*\d+[\)\.]\s*', text)`: scan left to right, splitting at
each (non-empty) match.  `fuel` bounds the scan; it is instantiated with the
text's length, which suffices since every match consumes at least one
character. -/
def reSplitNumAux : Nat → List Char → List Char → List (List Char)
  | 0, l, seg => [seg.reverse ++ l]
  | _ + 1, [], seg => [seg.reverse]
  | fuel + 1, c :: cs, seg =>
    match numMarkMatch (c :: cs) with
    | some rest => seg.reverse :: reSplitNumAux fuel rest []
    | none => reSplitNumAux fuel cs (c :: seg)

def reSplitNum (l : List Char) : List (List Char) :=
  reSplitNumAux l.length l []

/-- `', '.join(items)`. -/
def joinCommaSp : List (List Char) → List Char
  | [] => []
  | [l] => l
  | l :: ls => l ++ ',' :: ' ' :: joinCommaSp ls

/-- `LLMClient._format_numbered`: normalise numbered/bulleted answers into a
comma-separated phrase. -/
def formatNumbered (text : String) : String :=
  if text = "" then text
  else
    let parts := reSplitNum (pyStrip text.data)
    let items := (parts.filter fun p => pyStrip p ≠ []).map fun p =>
      pyStrip (collapseWsCore p)
    if 2 ≤ items.length then String.mk (joinCommaSp items)
    else pyStripS text

/-- Shared body of the three cloud response functions: on a successful
completion, strip it, normalise numbering and attach the heuristic
confidence; on an exception return the apology with confidence 0.0. -/
def cloudResponse (modelName : String) (completion : Except String String)
    (context : String) : GenAnswer :=
  match completion with
  | .ok raw =>
    let t := formatNumbered (pyStripS raw)
    { response := t
      confidence := calculateConfidence t context
      modelTag := some modelName
      errorMsg := none }
  | .error e =>
    { response := "Sorry, I encountered an error: " ++ e
      confidence := 0
      modelTag := none
      errorMsg := some e }

/-- The backend-selection state of `LLMClient` after `__init__`: the
constructor flags plus whether each credential/client attribute is set. -/
structure LLMConfig where
  use_groq : Bool
  groq_client : Bool
  use_google : Bool
  google_api_key : Bool
  api_key : Bool
deriving DecidableEq, Repr

/-- Paragraph scoring of `LLMClient._generate_simple_response`: keyword
matches plus a 0.5 length bonus. -/
def paraScore (queryWords : List (List Char)) (para : List Char) : ℚ :=
  let paraLower := lowerStr para
  let base : ℚ := (queryWords.filter fun w => containsSub w paraLower).length
  if 100 < para.length then base + 1/2 else base

/-- Python `context.replace('\n\n', '\n')` (left-to-right, non-overlapping). -/
def replaceNlNl : List Char → List Char
  | '\n' :: '\n' :: rest => '\n' :: replaceNlNl rest
  | c :: rest => c :: replaceNlNl rest
  | [] => []

/-- Python `response.replace('  ', ' ')`. -/
def replaceSpSp : List Char → List Char
  | ' ' :: ' ' :: rest => ' ' :: replaceSpSp rest
  | c :: rest => c :: replaceSpSp rest
  | [] => []

/-- `'\n\n'.join(paragraphs)`. -/
def joinNlNl : List (List Char) → List Char
  | [] => []
  | [l] => l
  | l :: ls => l ++ '\n' :: '\n' :: joinNlNl ls

/-- `LLMClient._generate_simple_response`: the local extractive fallback. -/
def simpleResponse (query context : String) : GenAnswer :=
  if context = "" then
    { response := "I could not find relevant information in the documents."
      confidence := 0
      modelTag := some "local_fallback"
      errorMsg := none }
  else
    let contextClean := pyStrip (replaceNlNl context.data)
    let paragraphs := ((splitOnNl contextClean).map pyStrip).filter (· ≠ [])
    let queryWords :=
      ((pyWords query.data).filter fun w => 2 < w.length).map lowerStr
    let scored :=
      ((paragraphs.filter fun p => ¬ p.length < 20).map
          fun p => (paraScore queryWords p, p)).filter
        fun sp => 0 < sp.1
    let sorted := List.insertionSort (fun a b : ℚ × List Char => b.1 ≤ a.1) scored
    if sorted ≠ [] then
      let top := (sorted.take 3).map (·.2)
      let resp := pyStrip (replaceSpSp (joinNlNl top))
      let resp := if 800 < resp.length then resp.take 800 ++ "...".data else resp
      { response := String.mk resp
        confidence := if 1 < sorted.length then 7/10 else 1/2
        modelTag := some "local_fallback"
        errorMsg := none }
    else
      match paragraphs.find? fun p => 50 < p.length with
      | some para =>
        { response :=
            String.mk (if 400 < para.length then para.take 400 ++ "...".data else para)
          confidence := 2/5
          modelTag := some "local_fallback"
          errorMsg := none }
      | none =>
        { response :=
            if 300 < context.length then String.mk (context.data.take 300 ++ "...".data)
            else context
          confidence := 3/10
          modelTag := some "local_fallback"
          errorMsg := none }

/-- `LLMClient.generate_response`: dispatch on the configured backend
(Groq, then Google, then OpenAI, then the local extractive fallback).
`groqModelName` is `settings.GROQ_MODEL or "llama-3.3-70b-versatile"`;
`completion` is the outcome of whichever cloud backend is selected. -/
def generateResponse (cfg : LLMConfig) (groqModelName : String)
    (completion : Except String String) (query context _language : String) : GenAnswer :=
  if cfg.use_groq ∧ cfg.groq_client then cloudResponse groqModelName completion context
  else if cfg.use_google ∧ cfg.google_api_key then cloudResponse "gemini-pro" completion context
  else if cfg.api_key then cloudResponse "gpt-3.5-turbo" completion context
  else simpleResponse query context

/-- Whether a cloud generation backend is selected by the dispatch. -/
def cloudConfigured (cfg : LLMConfig) : Bool :=
  (cfg.use_groq && cfg.groq_client) || (cfg.use_google && cfg.google_api_key) || cfg.api_key

/-! ## Vector Index — `server/ingest/vectorstore.py`

`FAISSVectorStore` wraps a FAISS `IndexFlatIP` plus a parallel metadata
list.  Vectors are `List ℝ` (exact-arithmetic idealisation of the float32
arrays); metadata entries have an arbitrary type `α`.  The FAISS flat
inner-product index is modelled by its contract: it stores the added rows in
order, and `index.search(x, j)` (with `0 ≤ j ≤ ntotal`, as guaranteed by the
call site's `min(k, ntotal)`) returns the `j` best inner products with the
stored rows in descending order.  Disk persistence (`_save_index`,
`_save_metadata`) only mirrors the in-memory state and is not modelled. -/

/-- Sum of squares of the entries (the square of the L2 norm). -/
noncomputable def sumSq (v : List ℝ) : ℝ :=
  (v.map fun x => x * x).sum

/-- Inner product of two vectors. -/
noncomputable def dotProd (u v : List ℝ) : ℝ :=
  (List.zipWith (· * ·) u v).sum

/-- `faiss.normalize_L2`: divide every entry by the L2 norm. -/
noncomputable def normalizeL2 (v : List ℝ) : List ℝ :=
  v.map fun x => x / Real.sqrt (sumSq v)

structure VectorStore (α : Type) where
  dimension : Nat
  vectors : List (List ℝ)
  metadata : List α

/-- A freshly created store (`IndexFlatIP(dimension)`, empty metadata). -/
def mkStore (α : Type) (d : Nat) : VectorStore α :=
  ⟨d, [], []⟩

/-- `FAISSVectorStore.add_vectors`: no-op when either list is empty
(`if not vectors or not metadata: return`); otherwise L2-normalise the
vectors, append them to the index and extend the metadata list. -/
noncomputable def addVectors {α : Type} (s : VectorStore α)
    (vs : List (List ℝ)) (ms : List α) : VectorStore α :=
  match vs, ms with
  | [], _ => s
  | _, [] => s
  | _ :: _, _ :: _ =>
    { s with
      vectors := s.vectors ++ vs.map normalizeL2
      metadata := s.metadata ++ ms }

/-- `FAISSVectorStore.clear`: fresh index of the same dimension, empty
metadata. -/
def clearStore {α : Type} (s : VectorStore α) : VectorStore α :=
  { s with vectors := [], metadata := [] }

/-- The descending-score order used to model FAISS result ranking. -/
def scoreDesc (a b : Nat × ℝ) : Prop :=
  b.2 ≤ a.2

noncomputable instance : DecidableRel scoreDesc := fun a b =>
  Real.decidableLE b.2 a.2

instance : IsTotal (Nat × ℝ) scoreDesc :=
  ⟨fun a b => le_total b.2 a.2⟩

instance : IsTrans (Nat × ℝ) scoreDesc :=
  ⟨fun _ _ _ h1 h2 => h2.trans h1⟩

/-- The (row index, inner product with `qn`) pairs for all stored rows. -/
noncomputable def searchScores {α : Type} (s : VectorStore α) (qn : List ℝ) :
    List (Nat × ℝ) :=
  (s.vectors.map fun v => dotProd qn v).enum

/-- `FAISSVectorStore.search`: empty result on an empty index; otherwise
normalise the query, rank all rows by inner product, keep the best
`min(k, ntotal)` and pair each surviving row index with its metadata
(`if idx < len(self.metadata)`). -/
noncomputable def search {α : Type} (s : VectorStore α) (q : List ℝ) (k : Nat) :
    List (α × ℝ) :=
  if s.vectors.length = 0 then []
  else
    let ranked := List.insertionSort scoreDesc (searchScores s (normalizeL2 q))
    (ranked.take (min k s.vectors.length)).filterMap fun p =>
      (s.metadata[p.1]?).map fun m => (m, p.2)

/-! ## Concrete inputs used by counterexamples -/

/-- A 551-character sentence (e.g. a long unpunctuated passage, which
`nltk.sent_tokenize` returns as a single sentence). -/
def longSentence : String :=
  String.mk (List.replicate 551 'a')

/-- The external `SequenceMatcher.ratio` similarity, instantiated on the
candidate pool below: the ratio of two equal strings is 1.0, of two
different strings here 0. -/
def simEqOne (a b : String) : ℚ :=
  if a = b then 1 else 0

/-- A candidate pool holding the same chunk text twice with different
scores (two distinct result dicts with near-duplicate — here identical —
texts). -/
def dupPool : List RResult :=
  [⟨"the deadline is in march", 1/2, 0⟩, ⟨"the deadline is in march", 2/5, 1⟩]

/-! ## General helper lemmas -/

theorem length_filterMap_all {β γ : Type} (f : β → Option γ) :
    ∀ l : List β, (∀ a ∈ l, (f a).isSome) → (l.filterMap f).length = l.length := by
  intro l
  induction l with
  | nil => intro _; rfl
  | cons a l ih =>
    intro h
    rcases ha : f a with _ | b
    · have := h a (List.mem_cons_self a l)
      rw [ha] at this
      simp at this
    · simp only [List.filterMap_cons, ha, List.length_cons]
      rw [ih fun x hx => h x (List.mem_cons_of_mem a hx)]

theorem mem_enumFrom_fst_lt {β : Type} :
    ∀ (l : List β) (n : Nat) (p : Nat × β), p ∈ List.enumFrom n l → p.1 < n + l.length := by
  intro l
  induction l with
  | nil => intro n p hp; simp [List.enumFrom] at hp
  | cons a l ih =>
    intro n p hp
    rcases List.mem_cons.mp hp with h | h
    · subst h; simp
    · have := ih (n + 1) p h
      simp only [List.length_cons]
      omega

theorem mem_enum_fst_lt {β : Type} (l : List β) (p : Nat × β) (hp : p ∈ l.enum) :
    p.1 < l.length := by
  have := mem_enumFrom_fst_lt l 0 p hp
  simpa using this

theorem pyStrip_length_le (l : List Char) : (pyStrip l).length ≤ l.length := by
  unfold pyStrip
  calc (((l.dropWhile pyIsSpace).reverse.dropWhile pyIsSpace).reverse).length
      = ((l.dropWhile pyIsSpace).reverse.dropWhile pyIsSpace).length := by
        rw [List.length_reverse]
    _ ≤ (l.dropWhile pyIsSpace).reverse.length := (List.dropWhile_sublist _).length_le
    _ = (l.dropWhile pyIsSpace).length := by rw [List.length_reverse]
    _ ≤ l.length := (List.dropWhile_sublist _).length_le

theorem collapseWsAux_mem :
    ∀ (l : List Char) (b : Bool) (c : Char),
      c ∈ collapseWsAux b l → c = ' ' ∨ pyIsSpace c = false := by
  intro l
  induction l with
  | nil => intro b c hc; simp [collapseWsAux] at hc
  | cons a cs ih =>
    intro b c hc
    simp only [collapseWsAux] at hc
    split_ifs at hc with h1 h2
    · exact ih true c hc
    · rcases List.mem_cons.mp hc with h' | h'
      · exact Or.inl h'
      · exact ih true c h'
    · rcases List.mem_cons.mp hc with h' | h'
      · subst h'
        exact Or.inr (by simpa using h1)
      · exact ih false c h'

theorem collapseWs_no_nl (l : List Char) : '\n' ∉ collapseWsCore l := by
  intro hm
  rcases collapseWsAux_mem l false '\n' hm with h | h
  · exact absurd h (by decide)
  · exact absurd h (by decide)

theorem splitOnNl_eq_single : ∀ l : List Char, '\n' ∉ l → splitOnNl l = [l] := by
  intro l
  induction l with
  | nil => intro _; rfl
  | cons c cs ih =>
    intro h
    have hc : ¬ c = '\n' := fun hc => h (hc ▸ List.mem_cons_self c cs)
    have hcs : '\n' ∉ cs := fun hm => h (List.mem_cons_of_mem c hm)
    rw [splitOnNl, if_neg hc, ih hcs]

/-! ## C5 — `clean_text` line filtering -/

/-- C5 counterexample input: a multi-line text with the standalone
page-number line `7`. -/
def pageNumberText : String :=
  "Hello there everyone\n7\nDeadline is March"

/-- C5 (counterexample): `clean_text` collapses all whitespace — newlines
included — before splitting on newlines, so the standalone page-number line
`7` survives inside the single remaining line and its digit appears in the
cleaned output, contradicting the claim. -/
theorem cleanText_pageNumber_survives :
    cleanText pageNumberText = "Hello there everyone 7 Deadline is March"
    ∧ containsSub "7".data (cleanText pageNumberText).data = true := by
  decide

/-- C5 (amended): because `clean_text` collapses every whitespace run —
newlines included — to a single space before splitting on `'\n'`, the line
filters apply to the whole text as one line: the result is the collapsed,
stripped text when it passes `keepLine` (length ≥ 2; not a pure digit string
of length < 5; not shorter than 20 characters while containing a
header/footer keyword) and the empty string otherwise.  Standalone
page-number lines inside longer multi-line text are therefore not removed. -/
theorem cleanText_single_line (s : String) :
    cleanText s =
      if keepLine (pyStrip (collapseWsCore s.data)) then
        String.mk (pyStrip (collapseWsCore s.data))
      else "" := by
  unfold cleanText cleanTextCore
  by_cases hnil : s.data = []
  · rw [if_pos hnil, hnil]
    have hk : keepLine (pyStrip (collapseWsCore [])) = false := by decide
    rw [hk]
    rfl
  · rw [if_neg hnil]
    rw [splitOnNl_eq_single _ (collapseWs_no_nl s.data)]
    rw [List.map_singleton, List.filter_singleton]
    cases hk : keepLine (pyStrip (collapseWsCore s.data))
    · simp only [hk, cond_false, if_false, joinNl]
      rfl
    · simp only [hk, cond_true, if_true, joinNl]

/-! ## C4 — chunk length bound and overlap seeding -/

theorem overlapSeed_length_le (ov : Nat) (hov : 1 ≤ ov) (cur : List Char) :
    (overlapSeed ov cur).length ≤ ov := by
  unfold overlapSeed
  split_ifs with h1 h2
  · omega
  · rw [List.length_drop]
    omega
  · omega

theorem chunkLoop_length_bound (cs ov : Nat) (hov : 1 ≤ ov) :
    ∀ (ss : List (List Char)) (cur : List Char),
      cur.length ≤ cs + ov → (∀ s ∈ ss, (pyStrip s).length + 1 ≤ cs) →
      ∀ b ∈ chunkLoop cs ov cur ss, b.length ≤ cs + ov := by
  intro ss
  induction ss with
  | nil =>
    intro cur hcur _ b hb
    simp only [chunkLoop] at hb
    split at hb
    · simp at hb
    · rw [List.mem_singleton] at hb
      exact hb ▸ hcur
  | cons s rest ih =>
    intro cur hcur hs b hb
    have hhead : (pyStrip s).length + 1 ≤ cs := hs s (List.mem_cons_self s rest)
    have htail : ∀ u ∈ rest, (pyStrip u).length + 1 ≤ cs := fun u hu =>
      hs u (List.mem_cons_of_mem s hu)
    simp only [chunkLoop] at hb
    split_ifs at hb with h1 h2 h3
    · exact ih cur hcur htail b hb
    · rcases List.mem_cons.mp hb with h | h
      · exact h ▸ hcur
      · refine ih _ ?_ htail b h
        have := overlapSeed_length_le ov hov cur
        simp only [List.length_append, List.length_cons]
        omega
    · refine ih _ ?_ htail b hb
      omega
    · refine ih _ ?_ htail b hb
      have h2' : cur.length + (pyStrip s).length ≤ cs := by
        rcases not_and_or.mp h2 with h | h
        · omega
        · exact absurd (by simpa using h) h3
      simp only [List.length_append, List.length_cons]
      omega

theorem chunkLoop_head_extends (cs ov : Nat) :
    ∀ (ss : List (List Char)) (cur h : List Char) (t : List (List Char)),
      cur ≠ [] → chunkLoop cs ov cur ss = h :: t → ∃ ext, h = cur ++ ext := by
  intro ss
  induction ss with
  | nil =>
    intro cur h t _ he
    simp only [chunkLoop] at he
    split at he
    · exact absurd he (by simp)
    · rw [show ([cur] : List (List Char)) = cur :: [] from rfl] at he
      exact ⟨[], by simpa using (List.cons.injEq _ _ _ _ ▸ he).1.symm⟩
  | cons s rest ih =>
    intro cur h t hne he
    simp only [chunkLoop] at he
    split_ifs at he with h1 h2
    · exact ih cur h t hne he
    · refine ⟨[], ?_⟩
      injection he with he1 _
      simp [he1.symm]
    · rcases ih _ h t (by simp) he with ⟨ext, hext⟩
      exact ⟨' ' :: pyStrip s ++ ext, by simp [hext]⟩

theorem chunkLoop_chain (cs ov : Nat) (hov : 1 ≤ ov) :
    ∀ (ss : List (List Char)) (cur : List Char),
      List.Chain'
        (fun b1 b2 => ∃ r, b2 = overlapSeed ov b1 ++ ' ' :: r ∧ (overlapSeed ov b1).length ≤ ov)
        (chunkLoop cs ov cur ss) := by
  intro ss
  induction ss with
  | nil =>
    intro cur
    simp only [chunkLoop]
    split
    · exact List.chain'_nil
    · exact List.chain'_singleton cur
  | cons s rest ih =>
    intro cur
    simp only [chunkLoop]
    split_ifs with h1 h2 h3
    · exact ih cur
    · rw [List.chain'_cons']
      refine ⟨?_, ih _⟩
      intro y hy
      rcases hout : chunkLoop cs ov (overlapSeed ov cur ++ ' ' :: pyStrip s) rest with _ | ⟨h0, t0⟩
      · rw [hout] at hy; simp at hy
      · rw [hout] at hy
        simp only [List.head?_cons, Option.mem_def, Option.some.injEq] at hy
        rcases chunkLoop_head_extends cs ov rest _ h0 t0 (by simp) hout with ⟨ext, hext⟩
        subst hy
        refine ⟨pyStrip s ++ ext, ?_, overlapSeed_length_le ov hov cur⟩
        rw [hext]
        simp
    · exact ih _
    · exact ih _

set_option maxRecDepth 20000 in
/-- C4 (counterexample): with the default configuration (chunk_size 500,
overlap 50), a single 551-character sentence is emitted as one chunk of
length 551 > 500 + 50, so the claimed bound `length ≤ chunk_size + overlap`
fails. -/
theorem chunk_length_bound_counterexample :
    ¬ ∀ c ∈ splitFromSentences 500 50 [longSentence], c.text.length ≤ 500 + 50 := by
  decide

/-- C4 (amended): when `overlap ≥ 1` and every (stripped) sentence is
shorter than `chunk_size`, each produced chunk's text has length at most
`chunk_size + overlap`; and consecutive chunk buffers overlap by
construction: each buffer after the first starts with
`overlapSeed overlap previous` — a trailing segment of the previous buffer
of length at most `overlap` — followed by a space.  (Without the
sentence-length bound, a single long sentence yields an arbitrarily long
chunk, see the counterexample.) -/
theorem chunk_length_bound_amended (cs ov : Nat) (sentences : List String)
    (hov : 1 ≤ ov) (hs : ∀ s ∈ sentences, (pyStrip s.data).length + 1 ≤ cs) :
    (∀ c ∈ splitFromSentences cs ov sentences, c.text.length ≤ cs + ov)
    ∧ List.Chain'
        (fun b1 b2 => ∃ r, b2 = overlapSeed ov b1 ++ ' ' :: r ∧ (overlapSeed ov b1).length ≤ ov)
        (chunkLoop cs ov [] (sentences.map (·.data))) := by
  constructor
  · intro c hc
    unfold splitFromSentences at hc
    rcases List.mem_map.mp hc with ⟨b, hb, hbc⟩
    have hblen : b.length ≤ cs + ov := by
      refine chunkLoop_length_bound cs ov hov (sentences.map (·.data)) [] (by simp) ?_ b hb
      intro u hu
      rcases List.mem_map.mp hu with ⟨s, hsu, hus⟩
      exact hus ▸ hs s hsu
    calc c.text.length = (pyStrip b).length := by rw [← hbc]
      _ ≤ b.length := pyStrip_length_le b
      _ ≤ cs + ov := hblen
  · exact chunkLoop_chain cs ov hov (sentences.map (·.data)) []

/-- Witness for `chunk_length_bound_amended` at a concrete input. -/
theorem chunk_length_bound_amended_witness :
    (1 ≤ 50 ∧ ∀ s ∈ ["Hello there.", "Another sentence follows here."],
        (pyStrip s.data).length + 1 ≤ 500)
    ∧ ((∀ c ∈ splitFromSentences 500 50 ["Hello there.", "Another sentence follows here."],
          c.text.length ≤ 500 + 50)
    ∧ List.Chain'
        (fun b1 b2 => ∃ r, b2 = overlapSeed 50 b1 ++ ' ' :: r ∧ (overlapSeed 50 b1).length ≤ 50)
        (chunkLoop 500 50 []
          (["Hello there.", "Another sentence follows here."].map (·.data)))) :=
  ⟨⟨by decide, by decide⟩,
    chunk_length_bound_amended 500 50 ["Hello there.", "Another sentence follows here."]
      (by decide) (by decide)⟩

/-! ## C9 — partial-failure isolation of directory indexing -/

theorem processed_files_foldl :
    ∀ (files : List (String × FileOutcome)) (acc : IndexSummary),
      (files.foldl processOneFile acc).processed_files
        = acc.processed_files + (files.filter fun f => f.2.isSuccess).length := by
  intro files
  induction files with
  | nil => intro acc; simp
  | cons f rest ih =>
    intro acc
    rcases f with ⟨name, o⟩
    cases o <;> simp [processOneFile, FileOutcome.isSuccess, ih] <;> try omega

theorem errors_foldl :
    ∀ (files : List (String × FileOutcome)) (acc : IndexSummary),
      (files.foldl processOneFile acc).errors = acc.errors ++ files.filterMap errorEntry := by
  intro files
  induction files with
  | nil => intro acc; simp
  | cons f rest ih =>
    intro acc
    rcases f with ⟨name, o⟩
    cases o <;> simp [processOneFile, errorEntry, ih]

/-- C9: a parse failure (or an escaped exception) contributes one formatted
entry to `errors` and nothing to `processed_files`; a file with zero chunks
or zero embeddings contributes to neither (a silent skip); later files are
processed regardless (the summary is a pure fold over all files).  In the
3-file scenario where file #2 fails to parse, the summary reports
`processed_files = 2`, the chunks of files #1 and #3, and exactly one error
entry referencing file #2. -/
theorem indexDirectory_partial_failure_isolation (files : List (String × FileOutcome)) :
    (indexDirectory files).processed_files = (files.filter fun f => f.2.isSuccess).length
    ∧ (indexDirectory files).errors = files.filterMap errorEntry
    ∧ indexDirectory
        [("file1.pdf", .success 3), ("file2.pdf", .parseError "bad xref"),
          ("file3.pdf", .success 2)]
        = ⟨2, 5, ["file2.pdf: bad xref"]⟩ := by
  refine ⟨?_, ?_, by decide⟩
  · simpa using processed_files_foldl files ⟨0, 0, []⟩
  · simpa using errors_foldl files ⟨0, 0, []⟩

/-! ## C8 — the Generation Client never propagates backend exceptions -/

/-- C8: whenever a cloud generation backend is configured and its call
raises, `generate_response` returns a well-formed answer with confidence 0.0
whose response is the non-empty apology string
`"Sorry, I encountered an error: " ++ e`. -/
theorem generateResponse_backend_error_soft (cfg : LLMConfig) (groqModelName : String)
    (query context language e : String) (h : cloudConfigured cfg = true) :
    (generateResponse cfg groqModelName (.error e) query context language).confidence = 0
    ∧ (generateResponse cfg groqModelName (.error e) query context language).response
        = "Sorry, I encountered an error: " ++ e
    ∧ (generateResponse cfg groqModelName (.error e) query context language).response ≠ "" := by
  have hresp : ∀ mn : String,
      cloudResponse mn (.error e) context
        = { response := "Sorry, I encountered an error: " ++ e, confidence := 0,
            modelTag := none, errorMsg := some e } := fun _ => rfl
  have hne : ("Sorry, I encountered an error: " ++ e) ≠ "" := by
    intro habs
    have hlen := congrArg String.length habs
    rw [String.length_append] at hlen
    rw [show ("Sorry, I encountered an error: ").length = 31 from rfl] at hlen
    rw [show ("" : String).length = 0 from rfl] at hlen
    omega
  unfold generateResponse
  unfold cloudConfigured at h
  by_cases h1 : cfg.use_groq ∧ cfg.groq_client
  · rw [if_pos h1, hresp]
    exact ⟨rfl, rfl, hne⟩
  · rw [if_neg h1]
    by_cases h2 : cfg.use_google ∧ cfg.google_api_key
    · rw [if_pos h2, hresp]
      exact ⟨rfl, rfl, hne⟩
    · rw [if_neg h2]
      have h3 : cfg.api_key = true := by
        rcases Bool.or_eq_true_iff.mp h with h' | h'
        · rcases Bool.or_eq_true_iff.mp h' with h'' | h''
          · exact absurd ⟨(Bool.and_eq_true _ _ ▸ h'').1, (Bool.and_eq_true _ _ ▸ h'').2⟩ h1
          · exact absurd ⟨(Bool.and_eq_true _ _ ▸ h'').1, (Bool.and_eq_true _ _ ▸ h'').2⟩ h2
        · exact h'
      rw [if_pos (show cfg.api_key = true from h3), hresp]
      exact ⟨rfl, rfl, hne⟩

/-- Witness for `generateResponse_backend_error_soft`: a Groq-configured
client whose backend raises `"boom"`. -/
theorem generateResponse_backend_error_soft_witness :
    cloudConfigured ⟨true, true, false, false, false⟩ = true
    ∧ ((generateResponse ⟨true, true, false, false, false⟩ "llama-3.3-70b-versatile"
          (.error "boom") "q" "ctx" "en").confidence = 0
    ∧ (generateResponse ⟨true, true, false, false, false⟩ "llama-3.3-70b-versatile"
          (.error "boom") "q" "ctx" "en").response
        = "Sorry, I encountered an error: " ++ "boom"
    ∧ (generateResponse ⟨true, true, false, false, false⟩ "llama-3.3-70b-versatile"
          (.error "boom") "q" "ctx" "en").response ≠ "") :=
  ⟨rfl, generateResponse_backend_error_soft ⟨true, true, false, false, false⟩
    "llama-3.3-70b-versatile" "q" "ctx" "en" "boom" rfl⟩

/-! ## C6 / C10 — Embedding Provider degrade-once state machine -/

theorem genEmbeddings_local_state (st : EmbState) (h : st.use_local = true)
    (p p' localB : Except String (List (List ℚ))) (texts : List String) :
    genEmbeddings st p localB texts = genEmbeddings st p' localB texts
    ∧ (genEmbeddings st p localB texts).2 = st := by
  unfold genEmbeddings
  by_cases ht : texts = []
  · rw [if_pos ht, if_pos ht]
    exact ⟨rfl, rfl⟩
  · rw [if_neg ht, if_neg ht, if_pos h, if_pos h]
    cases localB <;> exact ⟨rfl, rfl⟩

theorem runEmbCalls_local (st : EmbState) (h : st.use_local = true)
    (calls : List (Except String (List (List ℚ)) × Except String (List (List ℚ)) × List String)) :
    (runEmbCalls st calls).use_local = true := by
  induction calls generalizing st with
  | nil => exact h
  | cons c rest ih =>
    unfold runEmbCalls at ih ⊢
    rw [List.foldl_cons]
    refine ih _ ?_
    rw [(genEmbeddings_local_state st h c.1 c.1 c.2.1 c.2.2).2]
    exact h

theorem genEmbeddings_nonlocal_error (st : EmbState) (hl : st.use_local = false)
    (texts : List String) (ht : texts ≠ []) (e : String)
    (localB : Except String (List (List ℚ))) :
    genEmbeddings st (.error e) localB texts =
      ((match localB with
        | .ok v => Except.ok v
        | .error e' => if st.use_google then Except.ok [] else Except.error e'),
        { st with use_local := true, embedding_dim := 384 }) := by
  unfold genEmbeddings
  rw [if_neg ht, if_neg (by simp [hl])]
  by_cases hg : st.use_google
  · rw [if_pos hg]
    cases localB <;> simp [hg]
  · rw [if_neg hg]
    cases localB <;> simp [hg]

/-- C6: for a provider in a non-local state, the first failing call (the
primary backend raising) permanently switches the provider to the local
backend — the state after the call has `use_local` set and
`get_embedding_dimension` = 384, and every later call leaves `use_local`
set; the same batch is retried once against the local backend (the call's
result is the local backend's batch when that call succeeds); and any
provider already in the local state never transitions away from it and
never consults the primary backend (its result and state do not depend on
the primary outcome). -/
theorem embedder_degrade_once (st : EmbState) (hl : st.use_local = false)
    (texts : List String) (ht : texts ≠ []) (e : String)
    (localB : Except String (List (List ℚ))) :
    (genEmbeddings st (.error e) localB texts).2.use_local = true
    ∧ getEmbeddingDimension (genEmbeddings st (.error e) localB texts).2 = 384
    ∧ (∀ vs, localB = .ok vs → (genEmbeddings st (.error e) localB texts).1 = .ok vs)
    ∧ (∀ calls, (runEmbCalls (genEmbeddings st (.error e) localB texts).2 calls).use_local = true)
    ∧ (∀ (st2 : EmbState) (p p' l2 : Except String (List (List ℚ))) (t2 : List String),
        st2.use_local = true →
          genEmbeddings st2 p l2 t2 = genEmbeddings st2 p' l2 t2
          ∧ (genEmbeddings st2 p l2 t2).2 = st2) := by
  rw [genEmbeddings_nonlocal_error st hl texts ht e localB]
  refine ⟨rfl, rfl, ?_, ?_, ?_⟩
  · intro vs hvs
    rw [hvs]
  · intro calls
    exact runEmbCalls_local _ rfl calls
  · intro st2 p p' l2 t2 h2
    exact genEmbeddings_local_state st2 h2 p p' l2 t2

/-- Witness for `embedder_degrade_once`: an OpenAI-configured provider whose
first call raises and whose local retry succeeds. -/
theorem embedder_degrade_once_witness :
    ((mkEmbedder false false).use_local = false ∧ (["text"] : List String) ≠ [])
    ∧ ((genEmbeddings (mkEmbedder false false) (.error "rate limited")
          (.ok [[1, 2]]) ["text"]).2.use_local = true
    ∧ getEmbeddingDimension
        (genEmbeddings (mkEmbedder false false) (.error "rate limited")
          (.ok [[1, 2]]) ["text"]).2 = 384
    ∧ (∀ vs, (Except.ok [[(1 : ℚ), 2]] : Except String (List (List ℚ))) = .ok vs →
        (genEmbeddings (mkEmbedder false false) (.error "rate limited")
          (.ok [[1, 2]]) ["text"]).1 = .ok vs)
    ∧ (∀ calls, (runEmbCalls
        (genEmbeddings (mkEmbedder false false) (.error "rate limited")
          (.ok [[1, 2]]) ["text"]).2 calls).use_local = true)
    ∧ (∀ (st2 : EmbState) (p p' l2 : Except String (List (List ℚ))) (t2 : List String),
        st2.use_local = true →
          genEmbeddings st2 p l2 t2 = genEmbeddings st2 p' l2 t2
          ∧ (genEmbeddings st2 p l2 t2).2 = st2)) :=
  ⟨⟨rfl, by decide⟩,
    embedder_degrade_once (mkEmbedder false false) rfl ["text"] (by decide)
      "rate limited" (.ok [[1, 2]])⟩

/-- C10: with `use_google=True` (the configuration `DocumentIndexer`
selects when a valid Google key is present), `get_embedding_dimension()`
reports 768 before the first call — and that is the dimension the FAISS
store is constructed with — yet every `generate_embeddings` call on a
non-empty batch never produces Google-backend embeddings: independently of
any primary-backend outcome it runs the local model on the batch, returns
its (384-dimensional) output and leaves the provider permanently in the
local state with dimension 384. -/
theorem embedder_google_always_local (k : String) (hk1 : k ≠ "")
    (hk2 : k ≠ "PUT_YOUR_GOOGLE_API_KEY_HERE") (oa : Option String)
    (texts : List String) (ht : texts ≠ [])
    (localB : Except String (List (List ℚ))) :
    indexerEmbedder (some k) oa = mkEmbedder false true
    ∧ getEmbeddingDimension (mkEmbedder false true) = 768
    ∧ (mkEmbedder false true).use_local = false
    ∧ indexerStoreDim (some k) oa = 768
    ∧ ∀ p, genEmbeddings (mkEmbedder false true) p localB texts
        = ((match localB with
            | .ok v => Except.ok v
            | .error _ => Except.ok []), ⟨true, true, 384⟩) := by
  have hsel : indexerEmbedder (some k) oa = mkEmbedder false true := by
    unfold indexerEmbedder
    rw [if_pos]
    exact ⟨by simpa using hk1, by simpa using hk2⟩
  refine ⟨hsel, ?_, ?_, ?_, ?_⟩
  · decide
  · decide
  · unfold indexerStoreDim
    rw [hsel]
    decide
  · intro p
    unfold genEmbeddings
    rw [if_neg ht]
    cases localB <;> rfl

/-- Witness for `embedder_google_always_local` at a concrete key and batch. -/
theorem embedder_google_always_local_witness :
    ("AIzaKey" ≠ "" ∧ "AIzaKey" ≠ "PUT_YOUR_GOOGLE_API_KEY_HERE"
      ∧ (["chunk text"] : List String) ≠ [])
    ∧ (indexerEmbedder (some "AIzaKey") none = mkEmbedder false true
    ∧ getEmbeddingDimension (mkEmbedder false true) = 768
    ∧ (mkEmbedder false true).use_local = false
    ∧ indexerStoreDim (some "AIzaKey") none = 768
    ∧ ∀ p, genEmbeddings (mkEmbedder false true) p (.ok [[3, 4]]) ["chunk text"]
        = ((match (Except.ok [[(3 : ℚ), 4]] : Except String (List (List ℚ))) with
            | .ok v => Except.ok v
            | .error _ => Except.ok []), ⟨true, true, 384⟩)) :=
  ⟨⟨by decide, by decide, by decide⟩,
    embedder_google_always_local "AIzaKey" (by decide) (by decide) none
      ["chunk text"] (by decide) (.ok [[3, 4]])⟩

/-! ## C7 — retriever result count and near-duplicate filtering -/

theorem strictPass_length_le (sim : String → String → ℚ) (k : Nat) :
    ∀ (pool acc : List RResult) (seen : List String),
      acc.length < k → (strictPass sim k pool acc seen).length ≤ k := by
  intro pool
  induction pool with
  | nil =>
    intro acc seen hacc
    exact Nat.le_of_lt hacc
  | cons r rest ih =>
    intro acc seen hacc
    simp only [strictPass]
    split_ifs with h1 h2 h3
    · exact ih acc seen hacc
    · simp only [List.length_append, List.length_singleton] at h3 ⊢
      omega
    · refine ih _ _ ?_
      simp only [List.length_append, List.length_singleton] at h3 ⊢
      omega
    · exact ih acc seen hacc

theorem backfillPass_length_le (k : Nat) :
    ∀ (pool acc : List RResult),
      acc.length < k → (backfillPass k pool acc).length ≤ k := by
  intro pool
  induction pool with
  | nil =>
    intro acc hacc
    exact Nat.le_of_lt hacc
  | cons r rest ih =>
    intro acc hacc
    simp only [backfillPass]
    split_ifs with h1 h2 h3
    · exact ih acc hacc
    · simp only [List.length_append, List.length_singleton] at h3 ⊢
      omega
    · refine ih _ ?_
      simp only [List.length_append, List.length_singleton] at h3 ⊢
      omega
    · exact ih acc hacc

theorem strictPass_pairwise (sim : String → String → ℚ) (k : Nat) :
    ∀ (pool acc : List RResult) (seen : List String),
      seen = acc.map (fun r => pyStripS r.text) →
      acc.Pairwise (fun a b => sim (pyStripS b.text) (pyStripS a.text) ≤ 4/5) →
      (strictPass sim k pool acc seen).Pairwise
        (fun a b => sim (pyStripS b.text) (pyStripS a.text) ≤ 4/5) := by
  intro pool
  induction pool with
  | nil =>
    intro acc seen _ hpw
    exact hpw
  | cons r rest ih =>
    intro acc seen hseen hpw
    simp only [strictPass]
    have happ : (acc ++ [r]).Pairwise
        (fun a b => sim (pyStripS b.text) (pyStripS a.text) ≤ 4/5) →
        True := fun _ => trivial
    split_ifs with h1 h2 h3
    · exact ih acc seen hseen hpw
    all_goals clear happ
    · have hnodup : ∀ a ∈ acc, sim (pyStripS r.text) (pyStripS a.text) ≤ 4/5 := by
        intro a ha
        have hmem : pyStripS a.text ∈ seen := by
          rw [hseen]
          exact List.mem_map.mpr ⟨a, ha, rfl⟩
        by_contra hgt
        exact h2 (List.any_eq_true.mpr ⟨pyStripS a.text, hmem, by
          simp only [decide_eq_true_eq]
          exact lt_of_not_le hgt⟩)
      exact List.pairwise_append.mpr
        ⟨hpw, List.pairwise_singleton _ _, fun a ha b hb => by
          rw [List.mem_singleton] at hb
          exact hb ▸ hnodup a ha⟩
    · have hnodup : ∀ a ∈ acc, sim (pyStripS r.text) (pyStripS a.text) ≤ 4/5 := by
        intro a ha
        have hmem : pyStripS a.text ∈ seen := by
          rw [hseen]
          exact List.mem_map.mpr ⟨a, ha, rfl⟩
        by_contra hgt
        exact h2 (List.any_eq_true.mpr ⟨pyStripS a.text, hmem, by
          simp only [decide_eq_true_eq]
          exact lt_of_not_le hgt⟩)
      refine ih _ _ ?_ ?_
      · simp [hseen]
      · exact List.pairwise_append.mpr
          ⟨hpw, List.pairwise_singleton _ _, fun a ha b hb => by
            rw [List.mem_singleton] at hb
            exact hb ▸ hnodup a ha⟩
    · exact ih acc seen hseen hpw

/-- C7 (counterexample): with `k = 2` and a legitimately sized candidate
pool (two results, ≤ 4·k) holding the same text twice with different
scores, the strict pass rejects the near-duplicate but the unfiltered
backfill pass re-admits it, so the retriever returns two results whose
pairwise similarity is 1 > 0.8. -/
theorem retriever_duplicate_counterexample :
    dupPool.length ≤ 4 * 2
    ∧ ¬ (retrieveRelevantChunks simEqOne 2 dupPool).Pairwise
        (fun a b => simEqOne (pyStripS b.text) (pyStripS a.text) ≤ 4/5) := by
  have hT : pyStripS "the deadline is in march" = "the deadline is in march" := by decide
  have heval : retrieveRelevantChunks simEqOne 2 dupPool = dupPool := by
    norm_num [retrieveRelevantChunks, strictPass, backfillPass, dupPool, simEqOne, hT,
      List.mem_singleton, RResult.mk.injEq,
      show ¬("the deadline is in march" = "") from by decide]
    exact List.cons_ne_nil _ _
  refine ⟨by decide, ?_⟩
  rw [heval]
  unfold dupPool
  intro hpw
  have h := (List.pairwise_cons.mp hpw).1 _ (List.mem_singleton.mpr rfl)
  rw [hT] at h
  rw [show simEqOne "the deadline is in march" "the deadline is in march" = 1 from by
    simp [simEqOne]] at h
  exact absurd h (by norm_num)

/-- C7 (amended): for every candidate pool actually fetched by the
retriever (at most `4*k` results, the `k*4` over-fetch bound of
`search_documents` — see `vectorstore_search_contract`), the retriever
returns at most `k` results, and no two results accepted by the strict
first pass have pairwise similarity above 0.8; the unfiltered backfill
pass, which only runs when the strict pass accepted fewer than `k`
results, may re-admit near-duplicate texts. -/
theorem retriever_bounded_and_strict_dedup (sim : String → String → ℚ) (k : Nat)
    (pool : List RResult) (hpool : pool.length ≤ 4 * k) :
    (retrieveRelevantChunks sim k pool).length ≤ k
    ∧ (strictPass sim k pool [] []).Pairwise
        (fun a b => sim (pyStripS b.text) (pyStripS a.text) ≤ 4/5) := by
  constructor
  · simp only [retrieveRelevantChunks]
    rcases Nat.eq_zero_or_pos k with hk | hk
    · subst hk
      have hpool0 : pool = [] := by
        rw [← List.length_eq_zero]
        omega
      subst hpool0
      simp [strictPass]
    · have hstrict := strictPass_length_le sim k pool [] [] (by simpa using hk)
      split_ifs with h
      · exact backfillPass_length_le k pool _ h.1
      · exact hstrict
  · exact strictPass_pairwise sim k pool [] [] rfl List.Pairwise.nil

/-- Witness for `retriever_bounded_and_strict_dedup` at a concrete pool. -/
theorem retriever_bounded_and_strict_dedup_witness :
    ([⟨"alpha text", 1/2, 0⟩, ⟨"beta text", 2/5, 1⟩] : List RResult).length ≤ 4 * 1
    ∧ ((retrieveRelevantChunks simEqOne 1 [⟨"alpha text", 1/2, 0⟩, ⟨"beta text", 2/5, 1⟩]).length ≤ 1
    ∧ (strictPass simEqOne 1 [⟨"alpha text", 1/2, 0⟩, ⟨"beta text", 2/5, 1⟩] [] []).Pairwise
        (fun a b => simEqOne (pyStripS b.text) (pyStripS a.text) ≤ 4/5)) :=
  ⟨by decide,
    retriever_bounded_and_strict_dedup simEqOne 1
      [⟨"alpha text", 1/2, 0⟩, ⟨"beta text", 2/5, 1⟩] (by decide)⟩

/-! ## C1 / C2 / C3 — Vector Index -/

theorem sumSq_nonneg (v : List ℝ) : 0 ≤ sumSq v := by
  refine List.sum_nonneg ?_
  intro x hx
  rcases List.mem_map.mp hx with ⟨a, _, ha⟩
  rw [← ha]
  exact mul_self_nonneg a

theorem sumSq_pos (v : List ℝ) (h : ∃ x ∈ v, x ≠ 0) : 0 < sumSq v := by
  rcases h with ⟨x, hx, hne⟩
  have hx2 : x * x ∈ v.map fun a => a * a := List.mem_map.mpr ⟨x, hx, rfl⟩
  have hle : x * x ≤ sumSq v := by
    refine List.single_le_sum ?_ _ hx2
    intro y hy
    rcases List.mem_map.mp hy with ⟨a, _, ha⟩
    rw [← ha]
    exact mul_self_nonneg a
  exact lt_of_lt_of_le (mul_self_pos.mpr hne) hle

theorem sumSq_map_div (v : List ℝ) (c : ℝ) :
    sumSq (v.map fun x => x / c) = sumSq v / (c * c) := by
  induction v with
  | nil => simp [sumSq]
  | cons a v ih =>
    simp only [List.map_cons, sumSq, List.sum_cons] at ih ⊢
    rw [ih, div_mul_div_comm, div_add_div_same]

theorem dotProd_self (v : List ℝ) : dotProd v v = sumSq v := by
  induction v with
  | nil => rfl
  | cons a v ih =>
    simp only [dotProd, sumSq, List.zipWith_cons_cons, List.map_cons, List.sum_cons] at ih ⊢
    rw [ih]

theorem dotProd_normalize_self (v : List ℝ) (h : ∃ x ∈ v, x ≠ 0) :
    dotProd (normalizeL2 v) (normalizeL2 v) = 1 := by
  have hpos := sumSq_pos v h
  unfold normalizeL2
  rw [dotProd_self, sumSq_map_div, Real.mul_self_sqrt (sumSq_nonneg v)]
  exact div_self (ne_of_gt hpos)

/-- C1: `add_vectors` with equal-length vector and metadata batches keeps
the stored vector count equal to the stored metadata count, appends the
normalised vectors and the metadata in the same order — so the vector at
position `|old| + i` is paired with the metadata at the same position `|old|
+ i`, for every `i` — and `clear` resets both sides together; no partial
state is ever observable (the update of both lists is a single step of the
model, mirroring the straight-line Python which extends both lists before
returning). -/
theorem vectorstore_positional_correspondence {α : Type} (s : VectorStore α)
    (vs : List (List ℝ)) (ms : List α) (hlen : vs.length = ms.length)
    (hinv : s.vectors.length = s.metadata.length) :
    (addVectors s vs ms).vectors.length = (addVectors s vs ms).metadata.length
    ∧ (addVectors s vs ms).vectors = s.vectors ++ vs.map normalizeL2
    ∧ (addVectors s vs ms).metadata = s.metadata ++ ms
    ∧ (∀ i (hi : i < vs.length),
        (addVectors s vs ms).vectors[s.vectors.length + i]?
            = some (normalizeL2 (vs.get ⟨i, hi⟩))
        ∧ (addVectors s vs ms).metadata[s.vectors.length + i]?
            = some (ms.get ⟨i, hlen ▸ hi⟩))
    ∧ (clearStore s).vectors.length = (clearStore s).metadata.length
    ∧ (clearStore s).vectors = [] ∧ (clearStore s).metadata = [] := by
  have hvm : (addVectors s vs ms).vectors = s.vectors ++ vs.map normalizeL2
      ∧ (addVectors s vs ms).metadata = s.metadata ++ ms := by
    rcases vs with _ | ⟨v, vs'⟩
    · have hms : ms = [] := by
        rw [← List.length_eq_zero, ← hlen]
        rfl
      subst hms
      exact ⟨by simp [addVectors], by simp [addVectors]⟩
    · rcases ms with _ | ⟨m, ms'⟩
      · exact absurd hlen (by simp)
      · exact ⟨rfl, rfl⟩
  refine ⟨?_, hvm.1, hvm.2, ?_, rfl, rfl, rfl⟩
  · rw [hvm.1, hvm.2]
    simp [hinv, hlen]
  · intro i hi
    constructor
    · rw [hvm.1, List.getElem?_append_right (by omega), Nat.add_sub_cancel_left,
        List.getElem?_map, List.getElem?_eq_getElem hi]
      rfl
    · rw [hvm.2, hinv, List.getElem?_append_right (by omega), Nat.add_sub_cancel_left,
        List.getElem?_eq_getElem (hlen ▸ hi)]
      rfl

/-- Witness for `vectorstore_positional_correspondence` at a concrete store. -/
theorem vectorstore_positional_correspondence_witness :
    (([[(1 : ℝ), 0]] : List (List ℝ)).length = ([5] : List Nat).length
      ∧ (mkStore Nat 2).vectors.length = (mkStore Nat 2).metadata.length)
    ∧ ((addVectors (mkStore Nat 2) [[(1 : ℝ), 0]] [5]).vectors.length
          = (addVectors (mkStore Nat 2) [[(1 : ℝ), 0]] [5]).metadata.length
    ∧ (addVectors (mkStore Nat 2) [[(1 : ℝ), 0]] [5]).vectors
        = (mkStore Nat 2).vectors ++ ([[(1 : ℝ), 0]] : List (List ℝ)).map normalizeL2
    ∧ (addVectors (mkStore Nat 2) [[(1 : ℝ), 0]] [5]).metadata = (mkStore Nat 2).metadata ++ [5]
    ∧ (∀ i (hi : i < ([[(1 : ℝ), 0]] : List (List ℝ)).length),
        (addVectors (mkStore Nat 2) [[(1 : ℝ), 0]] [5]).vectors[(mkStore Nat 2).vectors.length + i]?
            = some (normalizeL2 (([[(1 : ℝ), 0]] : List (List ℝ)).get ⟨i, hi⟩))
        ∧ (addVectors (mkStore Nat 2) [[(1 : ℝ), 0]] [5]).metadata[(mkStore Nat 2).vectors.length + i]?
            = some (([5] : List Nat).get ⟨i, hi⟩))
    ∧ (clearStore (mkStore Nat 2)).vectors.length = (clearStore (mkStore Nat 2)).metadata.length
    ∧ (clearStore (mkStore Nat 2)).vectors = [] ∧ (clearStore (mkStore Nat 2)).metadata = []) :=
  ⟨⟨rfl, rfl⟩,
    vectorstore_positional_correspondence (mkStore Nat 2) [[(1 : ℝ), 0]] [5] rfl rfl⟩

/-- C2: under the count invariant, `search` returns exactly
`min(k, ntotal)` results, in descending score order; on an empty index it
returns the empty list for every query and every `k`.  The model of
`search` is a total function, mirroring the Python method which performs no
raising operation (the `ntotal == 0` guard returns before FAISS is
consulted, and the call passes FAISS `min(k, ntotal) ≤ ntotal`). -/
theorem vectorstore_search_contract {α : Type} (s : VectorStore α) (q : List ℝ) (k : Nat)
    (h : s.metadata.length = s.vectors.length) :
    (search s q k).length = min k s.vectors.length
    ∧ List.Pairwise (fun a b : α × ℝ => b.2 ≤ a.2) (search s q k)
    ∧ (s.vectors = [] → search s q k = []) := by
  by_cases hz : s.vectors.length = 0
  · unfold search
    rw [if_pos hz, hz]
    exact ⟨by simp, List.Pairwise.nil, fun _ => rfl⟩
  · have hslen : (List.insertionSort scoreDesc (searchScores s (normalizeL2 q))).length
        = s.vectors.length := by
      rw [(List.perm_insertionSort scoreDesc (searchScores s (normalizeL2 q))).length_eq]
      unfold searchScores
      rw [List.enum_length, List.length_map]
    have hmemfst : ∀ p ∈ (List.insertionSort scoreDesc
        (searchScores s (normalizeL2 q))).take (min k s.vectors.length),
        p.1 < s.metadata.length := by
      intro p hp
      have hp1 : p ∈ List.insertionSort scoreDesc (searchScores s (normalizeL2 q)) :=
        List.mem_of_mem_take hp
      have hp2 : p ∈ searchScores s (normalizeL2 q) :=
        (List.perm_insertionSort scoreDesc (searchScores s (normalizeL2 q))).subset hp1
      have hp3 := mem_enum_fst_lt _ p hp2
      rw [List.length_map] at hp3
      rw [h]
      exact hp3
    have hsortd := List.sorted_insertionSort scoreDesc (searchScores s (normalizeL2 q))
    have htaked : ((List.insertionSort scoreDesc
        (searchScores s (normalizeL2 q))).take (min k s.vectors.length)).Pairwise scoreDesc :=
      List.Pairwise.sublist (List.take_sublist _ _) hsortd
    unfold search
    rw [if_neg hz]
    refine ⟨?_, ?_, ?_⟩
    · rw [length_filterMap_all _ _ ?_]
      · rw [List.length_take, hslen]
        omega
      · intro p hp
        have := hmemfst p hp
        rw [List.getElem?_eq_getElem this]
        rfl
    · refine List.pairwise_filterMap.mpr ?_
      refine htaked.imp ?_
      intro p p' hpp' b hb b' hb'
      rcases hmp : s.metadata[p.1]? with _ | m
      · rw [hmp] at hb
        simp at hb
      · rcases hmp' : s.metadata[p'.1]? with _ | m'
        · rw [hmp'] at hb'
          simp at hb'
        · rw [hmp] at hb
          rw [hmp'] at hb'
          simp only [Option.map_some', Option.mem_def, Option.some.injEq] at hb hb'
          rw [← hb, ← hb']
          exact hpp'
    · intro habs
      exact absurd (by rw [habs]; rfl : s.vectors.length = 0) hz

/-- Witness for `vectorstore_search_contract` at a concrete two-vector store. -/
theorem vectorstore_search_contract_witness :
    (VectorStore.mk 1 [[(1 : ℝ)], [2]] [10, 20]).metadata.length
        = (VectorStore.mk 1 [[(1 : ℝ)], [2]] [10, 20]).vectors.length
    ∧ ((search (VectorStore.mk 1 [[(1 : ℝ)], [2]] [10, 20]) [1] 5).length
          = min 5 (VectorStore.mk 1 [[(1 : ℝ)], [2]] [10, 20]).vectors.length
    ∧ List.Pairwise (fun a b : Nat × ℝ => b.2 ≤ a.2)
        (search (VectorStore.mk 1 [[(1 : ℝ)], [2]] [10, 20]) [1] 5)
    ∧ ((VectorStore.mk 1 [[(1 : ℝ)], [2]] [10, 20]).vectors = [] →
        search (VectorStore.mk 1 [[(1 : ℝ)], [2]] [10, 20]) [1] 5 = [])) :=
  ⟨rfl, vectorstore_search_contract (VectorStore.mk 1 [[(1 : ℝ)], [2]] [10, 20]) [1] 5 rfl⟩

/-- C3: inserting one non-zero vector `v` with metadata `m` into a fresh
store and searching with the same `v` and `k = 1` returns exactly
`[(m, 1)]` — unit self-similarity, since both the stored row and the query
are L2-normalised and their inner product is `‖v‖²/‖v‖² = 1`. -/
theorem vectorstore_round_trip {α : Type} (d : Nat) (v : List ℝ) (m : α)
    (hv : ∃ x ∈ v, x ≠ 0) :
    search (addVectors (mkStore α d) [v] [m]) v 1 = [(m, 1)] := by
  have hstore : addVectors (mkStore α d) [v] [m]
      = VectorStore.mk d [normalizeL2 v] [m] := rfl
  rw [hstore]
  unfold search
  rw [if_neg (by simp : ¬ (VectorStore.mk d [normalizeL2 v] [m]).vectors.length = 0)]
  rw [show searchScores (VectorStore.mk d [normalizeL2 v] [m]) (normalizeL2 v)
      = [((0 : Nat), (1 : ℝ))] from by
    rw [show searchScores (VectorStore.mk d [normalizeL2 v] [m]) (normalizeL2 v)
        = [(0, dotProd (normalizeL2 v) (normalizeL2 v))] from rfl,
      dotProd_normalize_self v hv]]
  rfl

/-- Witness for `vectorstore_round_trip` with the non-zero vector `[3, 4]`. -/
theorem vectorstore_round_trip_witness :
    (∃ x ∈ [(3 : ℝ), 4], x ≠ 0)
    ∧ search (addVectors (mkStore Nat 2) [[(3 : ℝ), 4]] [7]) [(3 : ℝ), 4] 1 = [(7, 1)] :=
  ⟨⟨3, by norm_num, by norm_num⟩,
    vectorstore_round_trip 2 [(3 : ℝ), 4] 7 ⟨3, by norm_num, by norm_num⟩⟩
